import Mathlib

/-!
Verification of the core logic of the memo-game repository: the deck builder
(createGameCards), the flip/match engine (handleCardPress and the scheduled
resolution), the win-detection effect, the carousel reposition arithmetic
(getRepositionedScrollX), and the selection-set handlers (handleImageSelect,
handleImageDeselect).  Each definition is a shallow embedding of the
corresponding JavaScript function from src/memo-game/screens.
-/

/-! ### Carousel index calculator (SelectionScreen.js, getRepositionedScrollX)

The source computes a current item index by rounding the pixel offset
(currentIndex = Math.round(scrollX / itemWidth)) and returns a new pixel
offset (newIndex * itemWidth).  The reposition decision itself is pure index
arithmetic, embedded here over Int (JS numbers on integral values).
COPIES_COUNT is the constant 3 from the component. -/

def COPIES_COUNT : Int := 3

/-- Embedding of getRepositionedScrollX at the index level: the fixed buffer
is 5; the left-edge test is currentIndex < buffer; the right-edge test in the
source reads currentIndex >= 2 * arrayLength - buffer. -/
def getRepositionedIndex (currentIndex : Int) (arrayLength : Int) : Option Int :=
  if currentIndex < 5 then some (currentIndex + arrayLength)
  else if 2 * arrayLength - 5 ≤ currentIndex then some (currentIndex - arrayLength)
  else none

/-! ### Selection set manager (SelectionScreen.js, handleImageSelect /
handleImageDeselect)

Image items in the app carry an id, a display content string and more; the
selection handlers compare items only by id.  The id field models the stable
unique identifier of the universal image format; content stands for the rest
of the record. -/

structure SelItem where
  id : String
  content : String
deriving DecidableEq, Repr

structure SelState where
  available : List SelItem
  selected : List SelItem
deriving DecidableEq, Repr

/-- Embedding of the sort in handleImageDeselect:
[...prev, image].sort((a, b) => a.id.localeCompare(b.id)) sorts ascending by
id; insertion sort on the same key yields the same sorted list. -/
def sortById (l : List SelItem) : List SelItem :=
  l.insertionSort (fun a b => a.id ≤ b.id)

/-- Embedding of handleImageSelect: a no-op when the slot set is full or the
image id is already selected; otherwise the image is appended to selected and
every item with its id is filtered out of available. -/
def handleImageSelect (required : Nat) (s : SelState) (image : SelItem) : SelState :=
  if required ≤ s.selected.length then s
  else if (s.selected.find? (fun sel => sel.id == image.id)).isSome then s
  else
    { available := s.available.filter (fun item => item.id != image.id)
      selected := s.selected ++ [image] }

/-- Embedding of handleImageDeselect: every item with the image id is filtered
out of selected, and the image is appended to available, which is then sorted
by id.  Note the source performs the append unconditionally. -/
def handleImageDeselect (s : SelState) (image : SelItem) : SelState :=
  { available := sortById (s.available ++ [image])
    selected := s.selected.filter (fun item => item.id != image.id) }

inductive SelOp where
  | select : SelItem → SelOp
  | deselect : SelItem → SelOp
deriving DecidableEq, Repr

def applySelOp (required : Nat) (s : SelState) : SelOp → SelState
  | SelOp.select img => handleImageSelect required s img
  | SelOp.deselect img => handleImageDeselect s img

def runSelOps (required : Nat) : SelState → List SelOp → SelState
  | s, [] => s
  | s, op :: ops => runSelOps required (applySelOp required s op) ops

def opItem : SelOp → SelItem
  | SelOp.select img => img
  | SelOp.deselect img => img

/-- The invariant maintained by the selection handlers: the two collections
partition the original pool (as sets) and are disjoint by id. -/
def SelInv (pool : List SelItem) (s : SelState) : Prop :=
  (∀ x : SelItem, (x ∈ s.available ∨ x ∈ s.selected) ↔ x ∈ pool) ∧
  (∀ x ∈ s.available, ∀ y ∈ s.selected, x.id ≠ y.id)

/-! ### Helper lemmas -/

theorem nodup_map_inj {α β : Type} (f : α → β) :
    ∀ (l : List α), (l.map f).Nodup →
      ∀ x ∈ l, ∀ y ∈ l, f x = f y → x = y := by
  intro l
  induction l with
  | nil => intro _ x hx; cases hx
  | cons a t ih =>
    intro hnd x hx y hy hf
    rw [List.map_cons, List.nodup_cons] at hnd
    rcases List.mem_cons.mp hx with hxa | hxt <;>
      rcases List.mem_cons.mp hy with hya | hyt
    · rw [hxa, hya]
    · have hmem : f x ∈ List.map f t := by
        rw [hf]; exact List.mem_map_of_mem f hyt
      rw [hxa] at hmem
      exact absurd hmem hnd.1
    · have hmem : f y ∈ List.map f t := by
        rw [← hf]; exact List.mem_map_of_mem f hxt
      rw [hya] at hmem
      exact absurd hmem hnd.1
    · exact ih hnd.2 x hxt y hyt hf

theorem mem_sortById (l : List SelItem) (x : SelItem) :
    x ∈ sortById l ↔ x ∈ l :=
  (List.perm_insertionSort (fun a b => a.id ≤ b.id) l).mem_iff

theorem handleImageSelect_inv (required : Nat) (pool : List SelItem)
    (hnd : (pool.map SelItem.id).Nodup) (img : SelItem) (himg : img ∈ pool)
    (s : SelState) (hinv : SelInv pool s) :
    SelInv pool (handleImageSelect required s img) := by
  unfold handleImageSelect
  split
  · exact hinv
  · split
    · exact hinv
    · next hfind =>
      have hnotsel : ∀ y ∈ s.selected, y.id ≠ img.id := by
        intro y hy
        have := List.find?_eq_none.mp (Option.not_isSome_iff_eq_none.mp hfind) y hy
        simpa using this
      constructor
      · intro x
        constructor
        · intro hx
          rcases hx with hx | hx
          · exact (hinv.1 x).mp (Or.inl (List.mem_filter.mp hx).1)
          · rcases List.mem_append.mp hx with hx | hx
            · exact (hinv.1 x).mp (Or.inr hx)
            · rw [List.mem_singleton.mp hx]; exact himg
        · intro hx
          rcases (hinv.1 x).mpr hx with hav | hsel
          · by_cases hid : x.id = img.id
            · have hxi : x = img := nodup_map_inj SelItem.id pool hnd x hx img himg hid
              exact Or.inr (List.mem_append.mpr (Or.inr (by rw [hxi]; exact List.mem_singleton_self img)))
            · exact Or.inl (List.mem_filter.mpr ⟨hav, by simpa using hid⟩)
          · exact Or.inr (List.mem_append.mpr (Or.inl hsel))
      · intro x hx y hy
        have hxav := List.mem_filter.mp hx
        rcases List.mem_append.mp hy with hy | hy
        · exact hinv.2 x hxav.1 y hy
        · rw [List.mem_singleton.mp hy]
          simpa using hxav.2

theorem handleImageDeselect_inv (pool : List SelItem)
    (hnd : (pool.map SelItem.id).Nodup) (img : SelItem) (himg : img ∈ pool)
    (s : SelState) (hinv : SelInv pool s) :
    SelInv pool (handleImageDeselect s img) := by
  unfold handleImageDeselect
  constructor
  · intro x
    constructor
    · intro hx
      rcases hx with hx | hx
      · rcases List.mem_append.mp ((mem_sortById _ x).mp hx) with hx | hx
        · exact (hinv.1 x).mp (Or.inl hx)
        · rw [List.mem_singleton.mp hx]; exact himg
      · exact (hinv.1 x).mp (Or.inr (List.mem_filter.mp hx).1)
    · intro hx
      rcases (hinv.1 x).mpr hx with hav | hsel
      · exact Or.inl ((mem_sortById _ x).mpr (List.mem_append.mpr (Or.inl hav)))
      · by_cases hid : x.id = img.id
        · have hxi : x = img := nodup_map_inj SelItem.id pool hnd x hx img himg hid
          exact Or.inl ((mem_sortById _ x).mpr (List.mem_append.mpr (Or.inr (by
            rw [hxi]; exact List.mem_singleton_self img))))
        · exact Or.inr (List.mem_filter.mpr ⟨hsel, by simpa using hid⟩)
  · intro x hx y hy
    have hysel := List.mem_filter.mp hy
    have hyid : y.id ≠ img.id := by simpa using hysel.2
    rcases List.mem_append.mp ((mem_sortById _ x).mp hx) with hx | hx
    · exact hinv.2 x hx y hysel.1
    · rw [List.mem_singleton.mp hx]
      exact fun h => hyid h.symm

theorem runSelOps_inv (required : Nat) (pool : List SelItem)
    (hnd : (pool.map SelItem.id).Nodup) :
    ∀ (ops : List SelOp) (s : SelState), SelInv pool s →
      (∀ op ∈ ops, opItem op ∈ pool) →
      SelInv pool (runSelOps required s ops) := by
  intro ops
  induction ops with
  | nil => intro s hinv _; exact hinv
  | cons op rest ih =>
    intro s hinv hops
    have hopmem : opItem op ∈ pool := hops op (List.mem_cons_self op rest)
    have hrest : ∀ o ∈ rest, opItem o ∈ pool :=
      fun o ho => hops o (List.mem_cons_of_mem op ho)
    have hstep : SelInv pool (applySelOp required s op) := by
      cases op with
      | select img => exact handleImageSelect_inv required pool hnd img hopmem s hinv
      | deselect img => exact handleImageDeselect_inv pool hnd img hopmem s hinv
    exact ih (applySelOp required s op) hstep hrest

/-! ### Claim theorems for the carousel -/

/-- C3 counterexample: at currentIndex = 275, L = 140 (copies = 3,
bufferZone = 5) the claim says no reposition is needed, because 275 is neither
below the buffer nor at least L * copies - bufferZone = 415; the code
nevertheless repositions to 275 - 140 = 135, since its right-edge threshold is
2 * L - 5 = 275. -/
theorem reposition_claim_counterexample :
    ¬ ((275 : Int) < 5) ∧ ¬ (COPIES_COUNT * 140 - 5 ≤ (275 : Int)) ∧
      getRepositionedIndex 275 140 = some 135 := by
  refine ⟨by decide, by decide, ?_⟩
  decide

/-- C3 amended: with the code's constants (bufferZone = 5, copies = 3) and
5 < L, the reposition function returns currentIndex + L when
currentIndex < 5, returns currentIndex - L when
currentIndex ≥ 2 * L - 5 (one base-length earlier than the claimed
L * copies - bufferZone), and no reposition otherwise. -/
theorem reposition_amended (i L : Int) (hL : 5 < L) (h0 : 0 ≤ i)
    (hub : i < COPIES_COUNT * L) :
    (i < 5 → getRepositionedIndex i L = some (i + L)) ∧
    (2 * L - 5 ≤ i → getRepositionedIndex i L = some (i - L)) ∧
    (5 ≤ i → i < 2 * L - 5 → getRepositionedIndex i L = none) := by
  unfold getRepositionedIndex
  refine ⟨?_, ?_, ?_⟩
  · intro h
    simp [h]
  · intro h
    have hnl : ¬ i < 5 := by omega
    simp [hnl, h]
  · intro h5 hmid
    have hnl : ¬ i < 5 := by omega
    have hnr : ¬ 2 * L - 5 ≤ i := by omega
    simp [hnl, hnr]

/-- Witness for the amended C3 at the spec's own concrete scenario
(currentIndex = 2, L = 140). -/
theorem reposition_amended_witness :
    ((5 : Int) < 140 ∧ (0 : Int) ≤ 2 ∧ (2 : Int) < COPIES_COUNT * 140) ∧
      getRepositionedIndex 2 140 = some 142 :=
  ⟨⟨by decide, by decide, by decide⟩,
    (reposition_amended 2 140 (by decide) (by decide) (by decide)).1 (by decide)⟩

/-- C7: whenever the reposition function returns a new index, that index is
congruent to the original index modulo the base length, so the remap never
changes the logical item. -/
theorem reposition_preserves_logical_item (i L j : Int)
    (h : getRepositionedIndex i L = some j) : j % L = i % L := by
  unfold getRepositionedIndex at h
  split at h
  · have hj : j = i + L := by
      simpa using h.symm
    rw [hj]
    have he : i + L = i + L * 1 := by ring
    rw [he, Int.add_mul_emod_self_left]
  · split at h
    · have hj : j = i - L := by
        simpa using h.symm
      rw [hj]
      have he : i - L = i + L * (-1) := by ring
      rw [he, Int.add_mul_emod_self_left]
    · cases h

/-- Witness for C7 at the spec's concrete scenario: index 2 with L = 140 is
repositioned to 142 and 142 mod 140 equals 2 mod 140. -/
theorem reposition_preserves_logical_item_witness :
    getRepositionedIndex 2 140 = some 142 ∧ (142 : Int) % 140 = 2 % 140 :=
  ⟨by decide, reposition_preserves_logical_item 2 140 142 (by decide)⟩

/-- C4: after every finite sequence of select and deselect operations on items
of the original pool, starting from the full pool with an empty selection,
available and selected are disjoint and their union is the pool.  The pool has
pairwise distinct ids (the universal image format's unique identifier). -/
theorem selection_invariant (required : Nat) (pool : List SelItem)
    (ops : List SelOp) (hnd : (pool.map SelItem.id).Nodup)
    (hops : ∀ op ∈ ops, opItem op ∈ pool) :
    (∀ x : SelItem,
        ¬ (x ∈ (runSelOps required ⟨pool, []⟩ ops).available ∧
            x ∈ (runSelOps required ⟨pool, []⟩ ops).selected)) ∧
    (∀ x : SelItem,
        (x ∈ (runSelOps required ⟨pool, []⟩ ops).available ∨
          x ∈ (runSelOps required ⟨pool, []⟩ ops).selected) ↔ x ∈ pool) := by
  have hinit : SelInv pool ⟨pool, []⟩ := by
    constructor
    · intro x
      simp
    · intro x _ y hy
      cases hy
  have hfin := runSelOps_inv required pool hnd ops ⟨pool, []⟩ hinit hops
  exact ⟨fun x hx => hfin.2 x hx.1 x hx.2 rfl, hfin.1⟩

/-- Witness for C4: a two-item pool with a select followed by a deselect. -/
theorem selection_invariant_witness :
    ((([⟨"a", "dog"⟩, ⟨"b", "cat"⟩] : List SelItem).map SelItem.id).Nodup ∧
      (∀ op ∈ [SelOp.select ⟨"a", "dog"⟩, SelOp.deselect ⟨"a", "dog"⟩],
        opItem op ∈ ([⟨"a", "dog"⟩, ⟨"b", "cat"⟩] : List SelItem))) ∧
    ¬ ((⟨"a", "dog"⟩ : SelItem) ∈
        (runSelOps 2 ⟨[⟨"a", "dog"⟩, ⟨"b", "cat"⟩], []⟩
          [SelOp.select ⟨"a", "dog"⟩, SelOp.deselect ⟨"a", "dog"⟩]).available ∧
      (⟨"a", "dog"⟩ : SelItem) ∈
        (runSelOps 2 ⟨[⟨"a", "dog"⟩, ⟨"b", "cat"⟩], []⟩
          [SelOp.select ⟨"a", "dog"⟩, SelOp.deselect ⟨"a", "dog"⟩]).selected) :=
  ⟨⟨by decide, by decide⟩,
    (selection_invariant 2 [⟨"a", "dog"⟩, ⟨"b", "cat"⟩]
      [SelOp.select ⟨"a", "dog"⟩, SelOp.deselect ⟨"a", "dog"⟩]
      (by decide) (by decide)).1 ⟨"a", "dog"⟩⟩

/-- C9 counterexample: deselecting an item that is not in the selected set is
not a no-op — the source appends the item to available unconditionally, so a
singleton available pool becomes a two-element list. -/
theorem deselect_not_noop_counterexample :
    ((⟨"a", "dog"⟩ : SelItem) ∉ (⟨[⟨"a", "dog"⟩], []⟩ : SelState).selected) ∧
      handleImageDeselect ⟨[⟨"a", "dog"⟩], []⟩ ⟨"a", "dog"⟩ ≠
        (⟨[⟨"a", "dog"⟩], []⟩ : SelState) := by
  refine ⟨by decide, ?_⟩
  intro h
  have hone : (handleImageDeselect ⟨[⟨"a", "dog"⟩], []⟩ ⟨"a", "dog"⟩).available.length = 1 := by
    rw [h]
    rfl
  have htwo : (handleImageDeselect ⟨[⟨"a", "dog"⟩], []⟩ ⟨"a", "dog"⟩).available.length = 2 := by
    show (sortById (([⟨"a", "dog"⟩] : List SelItem) ++ [⟨"a", "dog"⟩])).length = 2
    rw [sortById]
    exact ((List.perm_insertionSort (fun a b : SelItem => a.id ≤ b.id)
      (([⟨"a", "dog"⟩] : List SelItem) ++ [⟨"a", "dog"⟩])).length_eq).trans rfl
  omega

/-- C9 amended: selecting when the slot set is full and selecting an
already-selected item are silent no-ops, as claimed; deselecting an item whose
id is not in the selected set leaves selected unchanged but appends the item
to available (sorted by id) instead of being a no-op. -/
theorem selection_noop_amended (required : Nat) (s : SelState) (img : SelItem) :
    (required ≤ s.selected.length → handleImageSelect required s img = s) ∧
    ((∃ y ∈ s.selected, y.id = img.id) → handleImageSelect required s img = s) ∧
    ((∀ y ∈ s.selected, y.id ≠ img.id) →
      (handleImageDeselect s img).selected = s.selected ∧
      (handleImageDeselect s img).available = sortById (s.available ++ [img])) := by
  refine ⟨?_, ?_, ?_⟩
  · intro h
    simp [handleImageSelect, h]
  · intro h
    obtain ⟨y, hy, hid⟩ := h
    have hsome : (s.selected.find? (fun sel => sel.id == img.id)).isSome := by
      rw [List.find?_isSome]
      exact ⟨y, hy, by simpa using hid⟩
    unfold handleImageSelect
    split
    · rfl
    · simp [hsome]
  · intro h
    refine ⟨?_, rfl⟩
    unfold handleImageDeselect
    simp only []
    rw [List.filter_eq_self]
    intro y hy
    simpa using h y hy

/-- Witness for the amended C9: deselecting an item not in selected keeps the
selected list untouched and appends the item to available. -/
theorem selection_noop_amended_witness :
    (∀ y ∈ (⟨[], [⟨"b", "cat"⟩]⟩ : SelState).selected, y.id ≠ "a") ∧
      (handleImageDeselect ⟨[], [⟨"b", "cat"⟩]⟩ ⟨"a", "dog"⟩).selected =
          [⟨"b", "cat"⟩] ∧
        (handleImageDeselect ⟨[], [⟨"b", "cat"⟩]⟩ ⟨"a", "dog"⟩).available =
          sortById ([] ++ [⟨"a", "dog"⟩]) :=
  ⟨by decide,
    (selection_noop_amended 2 ⟨[], [⟨"b", "cat"⟩]⟩ ⟨"a", "dog"⟩).2.2 (by decide)⟩

/-! ### Deck builder (GameScreen.js, createGameCards)

Cards are generic in the image payload.  The source builds two cards per used
image, ids card_INDEX_a and card_INDEX_b sharing pairId INDEX, then shuffles
in place with Fisher-Yates driven by Math.random; the random draws are
abstracted as a function rnd, with the step-i draw taken modulo i + 1 exactly
as Math.floor(Math.random() * (i + 1)) lands in [0, i]. -/

structure GCard (Img : Type) where
  id : String
  pairId : Nat
  image : Img
  isFlipped : Bool
  isMatched : Bool
deriving DecidableEq

def mkCardId (index : Nat) (suffix : String) : String :=
  "card_" ++ toString index ++ "_" ++ suffix

def mkGameCard {Img : Type} (index : Nat) (suffix : String) (image : Img) : GCard Img :=
  { id := mkCardId index suffix, pairId := index, image := image,
    isFlipped := false, isMatched := false }

/-- Embedding of the forEach loop of createGameCards: for the image at
position index, push the a-card and the b-card of pair index. -/
def buildCardPairs {Img : Type} : List Img → Nat → List (GCard Img)
  | [], _ => []
  | image :: rest, index =>
      mkGameCard index "a" image :: mkGameCard index "b" image ::
        buildCardPairs rest (index + 1)

/-- Embedding of the destructuring swap inside the shuffle loop. -/
def listSwap {α : Type} (l : List α) (i j : Nat) : List α :=
  match l[i]?, l[j]? with
  | some a, some b => (l.set i b).set j a
  | _, _ => l

/-- Embedding of the shuffle loop: i counts down from length - 1 to 1, and at
each step position i is swapped with position rnd i % (i + 1). -/
def fisherYatesAux {α : Type} (rnd : Nat → Nat) : Nat → List α → List α
  | 0, l => l
  | i + 1, l => fisherYatesAux rnd i (listSwap l (i + 1) (rnd (i + 1) % (i + 2)))

def fisherYates {α : Type} (rnd : Nat → Nat) (l : List α) : List α :=
  fisherYatesAux rnd (l.length - 1) l

/-- Embedding of createGameCards: pairsNeeded = totalCards / 2 (JS slice
truncates the fractional bound when totalCards is odd, matching Nat
division); no input validation is performed. -/
def createGameCards {Img : Type} (selectedImages : List Img) (totalCards : Nat)
    (rnd : Nat → Nat) : List (GCard Img) :=
  fisherYates rnd (buildCardPairs (selectedImages.take (totalCards / 2)) 0)

/-! ### Shuffle permutation lemmas -/

theorem cons_set_perm {α : Type} :
    ∀ (t : List α) (j : Nat) (x b : α), t[j]? = some b →
      (b :: t.set j x).Perm (x :: t) := by
  intro t
  induction t with
  | nil => intro j x b h; simp at h
  | cons c t ih =>
    intro j x b h
    cases j with
    | zero =>
      rw [List.getElem?_cons_zero] at h
      have hb : b = c := by injection h with h; exact h.symm
      rw [hb, List.set_cons_zero]
      exact List.Perm.swap x c t
    | succ m =>
      rw [List.getElem?_cons_succ] at h
      rw [List.set_cons_succ]
      exact ((List.Perm.swap c b (t.set m x)).trans
        ((ih m x b h).cons c)).trans (List.Perm.swap x c t)

theorem set_set_perm {α : Type} :
    ∀ (l : List α) (i j : Nat) (a b : α), l[i]? = some a → l[j]? = some b →
      ((l.set i b).set j a).Perm l := by
  intro l
  induction l with
  | nil => intro i j a b h1 _; simp at h1
  | cons x t ih =>
    intro i j a b h1 h2
    cases i with
    | zero =>
      rw [List.getElem?_cons_zero] at h1
      have ha : a = x := by injection h1 with h1; exact h1.symm
      cases j with
      | zero =>
        rw [List.getElem?_cons_zero] at h2
        have hb : b = x := by injection h2 with h2; exact h2.symm
        rw [ha, hb, List.set_cons_zero, List.set_cons_zero]
      | succ m =>
        rw [List.getElem?_cons_succ] at h2
        rw [ha, List.set_cons_zero, List.set_cons_succ]
        exact cons_set_perm t m x b h2
    | succ k =>
      rw [List.getElem?_cons_succ] at h1
      cases j with
      | zero =>
        rw [List.getElem?_cons_zero] at h2
        have hb : b = x := by injection h2 with h2; exact h2.symm
        rw [hb, List.set_cons_succ, List.set_cons_zero]
        exact cons_set_perm t k x a h1
      | succ m =>
        rw [List.getElem?_cons_succ] at h2
        rw [List.set_cons_succ, List.set_cons_succ]
        exact (ih k m a b h1 h2).cons x

theorem listSwap_perm {α : Type} (l : List α) (i j : Nat) :
    (listSwap l i j).Perm l := by
  unfold listSwap
  split
  · next a b h1 h2 => exact set_set_perm l i j a b h1 h2
  · exact List.Perm.refl l

theorem fisherYatesAux_perm {α : Type} (rnd : Nat → Nat) :
    ∀ (n : Nat) (l : List α), (fisherYatesAux rnd n l).Perm l := by
  intro n
  induction n with
  | zero => intro l; exact List.Perm.refl l
  | succ i ih =>
    intro l
    exact (ih _).trans (listSwap_perm l (i + 1) (rnd (i + 1) % (i + 2)))

theorem fisherYates_perm {α : Type} (rnd : Nat → Nat) (l : List α) :
    (fisherYates rnd l).Perm l :=
  fisherYatesAux_perm rnd (l.length - 1) l

theorem createGameCards_perm {Img : Type} (selectedImages : List Img)
    (totalCards : Nat) (rnd : Nat → Nat) :
    (createGameCards selectedImages totalCards rnd).Perm
      (buildCardPairs (selectedImages.take (totalCards / 2)) 0) :=
  fisherYates_perm rnd _

/-! ### Deck structure lemmas -/

theorem buildCardPairs_length {Img : Type} :
    ∀ (l : List Img) (n : Nat), (buildCardPairs l n).length = 2 * l.length := by
  intro l
  induction l with
  | nil => intro n; rfl
  | cons x t ih =>
    intro n
    show (buildCardPairs t (n + 1)).length + 1 + 1 = 2 * (t.length + 1)
    rw [ih (n + 1)]
    omega

theorem buildCardPairs_mem {Img : Type} :
    ∀ (l : List Img) (n : Nat) (c : GCard Img), c ∈ buildCardPairs l n →
      ∃ k, k < l.length ∧ c.pairId = n + k ∧ l[k]? = some c.image ∧
        (c.id = mkCardId (n + k) "a" ∨ c.id = mkCardId (n + k) "b") ∧
        c.isFlipped = false ∧ c.isMatched = false := by
  intro l
  induction l with
  | nil => intro n c hc; cases hc
  | cons x t ih =>
    intro n c hc
    rcases List.mem_cons.mp hc with h | hc2
    · subst h
      exact ⟨0, by simp, by simp [mkGameCard], by simp [mkGameCard],
        Or.inl (by simp [mkGameCard]), rfl, rfl⟩
    · rcases List.mem_cons.mp hc2 with h | hc3
      · subst h
        exact ⟨0, by simp, by simp [mkGameCard], by simp [mkGameCard],
          Or.inr (by simp [mkGameCard]), rfl, rfl⟩
      · obtain ⟨k, hk, hpid, hget, hid, hf, hm⟩ := ih (n + 1) c hc3
        have heq : n + 1 + k = n + (k + 1) := by omega
        rw [heq] at hpid hid
        refine ⟨k + 1, by simpa using hk, hpid, ?_, hid, hf, hm⟩
        rw [List.getElem?_cons_succ]
        exact hget

theorem buildCardPairs_filter_out {Img : Type} (l : List Img) (n p : Nat)
    (h : p < n ∨ n + l.length ≤ p) :
    (buildCardPairs l n).filter (fun c => c.pairId == p) = [] := by
  rw [List.filter_eq_nil_iff]
  intro c hc
  obtain ⟨k, hk, hpid, _⟩ := buildCardPairs_mem l n c hc
  simp only [beq_iff_eq]
  omega

theorem buildCardPairs_filter_at {Img : Type} :
    ∀ (l : List Img) (n p : Nat) (img : Img), n ≤ p → l[p - n]? = some img →
      (buildCardPairs l n).filter (fun c => c.pairId == p) =
        [mkGameCard p "a" img, mkGameCard p "b" img] := by
  intro l
  induction l with
  | nil => intro n p img _ h2; simp at h2
  | cons x t ih =>
    intro n p img hnp hget
    by_cases hpn : p = n
    · subst hpn
      rw [Nat.sub_self, List.getElem?_cons_zero] at hget
      injection hget with hx
      subst hx
      show ((mkGameCard p "a" x :: mkGameCard p "b" x ::
        buildCardPairs t (p + 1)).filter (fun c => c.pairId == p)) = _
      rw [List.filter_cons, List.filter_cons,
        buildCardPairs_filter_out t (p + 1) p (Or.inl (Nat.lt_succ_self p))]
      simp [mkGameCard]
    · have hidx : p - n = (p - (n + 1)) + 1 := by omega
      rw [hidx, List.getElem?_cons_succ] at hget
      show ((mkGameCard n "a" x :: mkGameCard n "b" x ::
        buildCardPairs t (n + 1)).filter (fun c => c.pairId == p)) = _
      have ha : ((mkGameCard n "a" x : GCard Img).pairId == p) = false := by
        simp [mkGameCard]
        omega
      have hb : ((mkGameCard n "b" x : GCard Img).pairId == p) = false := by
        simp [mkGameCard]
        omega
      rw [List.filter_cons, List.filter_cons, ha, hb]
      simp only [if_neg, Bool.false_eq_true, if_false]
      exact ih (n + 1) p img (by omega) hget

theorem string_append_left_cancel (s t u : String) (h : s ++ t = s ++ u) :
    t = u := by
  have h2 := congrArg String.data h
  rw [String.data_append, String.data_append] at h2
  exact String.ext (List.append_cancel_left h2)

theorem mkCardId_a_ne_b (p : Nat) : mkCardId p "a" ≠ mkCardId p "b" := by
  intro h
  have h2 := string_append_left_cancel ("card_" ++ toString p ++ "_") "a" "b" h
  exact absurd h2 (by decide)

/-- C2: for even totalCards and enough images, the deck has exactly totalCards
cards; pair identifier p occurs on exactly two cards when p < totalCards / 2
and on none otherwise; the two cards of pair p carry the image at position p
and the two distinct ids card_p_a and card_p_b; and every card starts
face-down and unmatched. -/
theorem createGameCards_valid_deck {Img : Type} (images : List Img)
    (totalCards : Nat) (rnd : Nat → Nat) (heven : totalCards % 2 = 0)
    (himg : totalCards / 2 ≤ images.length) :
    (createGameCards images totalCards rnd).length = totalCards ∧
    (∀ p : Nat,
        ((createGameCards images totalCards rnd).filter
            (fun c => c.pairId == p)).length =
          if p < totalCards / 2 then 2 else 0) ∧
    (∀ p : Nat, p < totalCards / 2 → ∃ img : Img, images[p]? = some img ∧
        ((createGameCards images totalCards rnd).filter
            (fun c => c.pairId == p)).Perm
          [mkGameCard p "a" img, mkGameCard p "b" img] ∧
        mkCardId p "a" ≠ mkCardId p "b") ∧
    (∀ c ∈ createGameCards images totalCards rnd,
        c.isFlipped = false ∧ c.isMatched = false) := by
  have hperm := createGameCards_perm images totalCards rnd
  have htklen : (images.take (totalCards / 2)).length = totalCards / 2 := by
    rw [List.length_take]
    omega
  refine ⟨?_, ?_, ?_, ?_⟩
  · rw [hperm.length_eq, buildCardPairs_length, htklen]
    omega
  · intro p
    rw [(hperm.filter (fun c => c.pairId == p)).length_eq]
    by_cases hp : p < totalCards / 2
    · rw [if_pos hp]
      have hplen : p < images.length := lt_of_lt_of_le hp himg
      have hget : (images.take (totalCards / 2))[p - 0]? = some images[p] := by
        rw [Nat.sub_zero, List.getElem?_take_of_lt hp]
        exact List.getElem?_eq_getElem hplen
      rw [buildCardPairs_filter_at (images.take (totalCards / 2)) 0 p images[p]
        (Nat.zero_le p) hget]
      rfl
    · rw [if_neg hp]
      rw [buildCardPairs_filter_out (images.take (totalCards / 2)) 0 p
        (Or.inr (by omega))]
      rfl
  · intro p hp
    have hplen : p < images.length := lt_of_lt_of_le hp himg
    refine ⟨images[p], List.getElem?_eq_getElem hplen, ?_, mkCardId_a_ne_b p⟩
    have hget : (images.take (totalCards / 2))[p - 0]? = some images[p] := by
      rw [Nat.sub_zero, List.getElem?_take_of_lt hp]
      exact List.getElem?_eq_getElem hplen
    have hf := hperm.filter (fun c => c.pairId == p)
    rw [buildCardPairs_filter_at (images.take (totalCards / 2)) 0 p images[p]
      (Nat.zero_le p) hget] at hf
    exact hf
  · intro c hc
    obtain ⟨k, _, _, _, _, hflip, hmatch⟩ :=
      buildCardPairs_mem (images.take (totalCards / 2)) 0 c (hperm.mem_iff.mp hc)
    exact ⟨hflip, hmatch⟩

/-- Witness for C2 at the spec's concrete scenario: two images, four cards. -/
theorem createGameCards_valid_deck_witness :
    (4 % 2 = 0 ∧ 4 / 2 ≤ ([10, 20] : List Nat).length) ∧
      (createGameCards ([10, 20] : List Nat) 4 (fun _ => 0)).length = 4 :=
  ⟨⟨by decide, by decide⟩,
    (createGameCards_valid_deck [10, 20] 4 (fun _ => 0) (by decide) (by decide)).1⟩

/-- C6 counterexample: for totalCards = 4 and a single image (so
images.length = 1 < 2 = totalCards / 2) the deck builder performs no
validation and raises no InvalidConfiguration error: it synchronously returns
a short deck of two cards. -/
theorem deck_builder_no_error_counterexample :
    ([7] : List Nat).length < 4 / 2 ∧
      (createGameCards ([7] : List Nat) 4 (fun _ => 0)).length = 2 := by
  refine ⟨by decide, ?_⟩
  rw [(createGameCards_perm ([7] : List Nat) 4 (fun _ => 0)).length_eq,
    buildCardPairs_length]
  rfl

/-- C6 amended: createGameCards never fails; for every input it returns a deck
of length 2 * min (totalCards / 2) images.length, silently truncating instead
of raising InvalidConfiguration. -/
theorem createGameCards_total_length {Img : Type} (images : List Img)
    (totalCards : Nat) (rnd : Nat → Nat) :
    (createGameCards images totalCards rnd).length =
      2 * min (totalCards / 2) images.length := by
  rw [(createGameCards_perm images totalCards rnd).length_eq,
    buildCardPairs_length, List.length_take]

/-- C10: with fewer images than totalCards / 2 the deck builder returns,
without raising, a deck of length 2 * images.length in which every available
image is paired exactly once. -/
theorem createGameCards_short_deck {Img : Type} (images : List Img)
    (totalCards : Nat) (rnd : Nat → Nat) (heven : totalCards % 2 = 0)
    (hlt : images.length < totalCards / 2) :
    (createGameCards images totalCards rnd).length = 2 * images.length ∧
    (∀ p : Nat,
        ((createGameCards images totalCards rnd).filter
            (fun c => c.pairId == p)).length =
          if p < images.length then 2 else 0) ∧
    (∀ p : Nat, p < images.length → ∃ img : Img, images[p]? = some img ∧
        ((createGameCards images totalCards rnd).filter
            (fun c => c.pairId == p)).Perm
          [mkGameCard p "a" img, mkGameCard p "b" img]) := by
  have hperm := createGameCards_perm images totalCards rnd
  have htake : images.take (totalCards / 2) = images :=
    List.take_of_length_le (le_of_lt hlt)
  rw [htake] at hperm
  refine ⟨?_, ?_, ?_⟩
  · rw [hperm.length_eq, buildCardPairs_length]
  · intro p
    rw [(hperm.filter (fun c => c.pairId == p)).length_eq]
    by_cases hp : p < images.length
    · rw [if_pos hp]
      have hget : images[p - 0]? = some images[p] := by
        rw [Nat.sub_zero]
        exact List.getElem?_eq_getElem hp
      rw [buildCardPairs_filter_at images 0 p images[p] (Nat.zero_le p) hget]
      rfl
    · rw [if_neg hp]
      rw [buildCardPairs_filter_out images 0 p (Or.inr (by omega))]
      rfl
  · intro p hp
    refine ⟨images[p], List.getElem?_eq_getElem hp, ?_⟩
    have hget : images[p - 0]? = some images[p] := by
      rw [Nat.sub_zero]
      exact List.getElem?_eq_getElem hp
    have hf := hperm.filter (fun c => c.pairId == p)
    rw [buildCardPairs_filter_at images 0 p images[p] (Nat.zero_le p) hget] at hf
    exact hf

/-- Witness for C10: one image, totalCards = 6, deck of length 2. -/
theorem createGameCards_short_deck_witness :
    (6 % 2 = 0 ∧ ([10] : List Nat).length < 6 / 2) ∧
      (createGameCards ([10] : List Nat) 6 (fun _ => 0)).length = 2 :=
  ⟨⟨by decide, by decide⟩,
    (createGameCards_short_deck [10] 6 (fun _ => 0) (by decide) (by decide)).1⟩

/-! ### Match engine (GameScreen.js, handleCardPress and the win-detection
useEffect)

GameState mirrors the React state: gameCards, flippedCards (card ids),
isProcessing, matchedPairs, gameWon.  handleCardPress is the synchronous part
of the press handler; resolveFlipped is the body of the setTimeout scheduled
when the second card flips.  Because input is locked while isProcessing is
set (presses during the pause are no-ops) a run of the game is modelled as a
sequence of accepted presses, each followed by its scheduled resolution and
by the win-detection effect, which fires when its dependencies (matchedPairs;
the deck length never changes within a run) change. -/

structure GameState (Img : Type) where
  gameCards : List (GCard Img)
  flippedCards : List String
  isProcessing : Bool
  matchedPairs : Nat
  gameWon : Bool
deriving DecidableEq

/-- Embedding of handleCardPress: guarded no-ops, then flip the pressed card
and record it; when this is the second flipped card, set the processing lock
(the match/mismatch resolution is the scheduled resolveFlipped). -/
def handleCardPress {Img : Type} (s : GameState Img) (card : GCard Img) :
    GameState Img :=
  if s.isProcessing || card.isFlipped || card.isMatched then s
  else if 2 ≤ s.flippedCards.length then s
  else if (s.flippedCards ++ [card.id]).length = 2 then
    { s with
      gameCards := s.gameCards.map (fun c =>
        if c.id = card.id then { c with isFlipped := true } else c)
      flippedCards := s.flippedCards ++ [card.id]
      isProcessing := true }
  else
    { s with
      gameCards := s.gameCards.map (fun c =>
        if c.id = card.id then { c with isFlipped := true } else c)
      flippedCards := s.flippedCards ++ [card.id] }

/-- Embedding of the setTimeout body: with two flipped ids recorded, look the
two cards up; on equal pairIds mark both matched and increment matchedPairs,
otherwise flip both back; either way clear flippedCards and release the
lock. -/
def resolveFlipped {Img : Type} (s : GameState Img) : GameState Img :=
  match s.flippedCards with
  | [id1, id2] =>
    match s.gameCards.find? (fun c => c.id == id1),
        s.gameCards.find? (fun c => c.id == id2) with
    | some card1, some card2 =>
      if card1.pairId = card2.pairId then
        { s with
          gameCards := s.gameCards.map (fun c =>
            if c.id = card1.id ∨ c.id = card2.id then { c with isMatched := true }
            else c)
          flippedCards := []
          matchedPairs := s.matchedPairs + 1
          isProcessing := false }
      else
        { s with
          gameCards := s.gameCards.map (fun c =>
            if c.id = card1.id ∨ c.id = card2.id then { c with isFlipped := false }
            else c)
          flippedCards := []
          isProcessing := false }
    | _, _ => s
  | _ => s

/-- Embedding of the win-detection useEffect: gameCards.length > 0 and
matchedPairs > 0 and matchedPairs === gameCards.length / 2 (exact real
division, hence 2 * matchedPairs = gameCards.length) sets gameWon. -/
def checkWin {Img : Type} (s : GameState Img) : GameState Img :=
  if 0 < s.gameCards.length ∧ 0 < s.matchedPairs ∧
      2 * s.matchedPairs = s.gameCards.length then
    { s with gameWon := true }
  else s

/-- One accepted interaction: the press, the resolution it scheduled (exactly
when this press set the lock), and the effect run. -/
def gameStep {Img : Type} (s : GameState Img) (card : GCard Img) : GameState Img :=
  checkWin
    (if (handleCardPress s card).isProcessing && !s.isProcessing then
      resolveFlipped (handleCardPress s card)
    else handleCardPress s card)

def runGame {Img : Type} : GameState Img → List (GCard Img) → GameState Img
  | s, [] => s
  | s, c :: cs => runGame (gameStep s c) cs

/-- The win-detection effect emits its completion event at a step when its
dependency matchedPairs changed and the win condition holds. -/
def emitsWin {Img : Type} (s s2 : GameState Img) : Prop :=
  s2.matchedPairs ≠ s.matchedPairs ∧ 0 < s2.gameCards.length ∧
    0 < s2.matchedPairs ∧ 2 * s2.matchedPairs = s2.gameCards.length

instance emitsWinDecidable {Img : Type} (s s2 : GameState Img) :
    Decidable (emitsWin s s2) := by
  unfold emitsWin
  exact inferInstance

def winEmissionCount {Img : Type} : GameState Img → List (GCard Img) → Nat
  | _, [] => 0
  | s, c :: cs =>
    (if emitsWin s (gameStep s c) then 1 else 0) +
      winEmissionCount (gameStep s c) cs

/-! ### Engine field lemmas -/

theorem handleCardPress_matchedPairs {Img : Type} (s : GameState Img)
    (card : GCard Img) : (handleCardPress s card).matchedPairs = s.matchedPairs := by
  unfold handleCardPress
  split
  · rfl
  · split
    · rfl
    · split
      · rfl
      · rfl

theorem handleCardPress_gameWon {Img : Type} (s : GameState Img)
    (card : GCard Img) : (handleCardPress s card).gameWon = s.gameWon := by
  unfold handleCardPress
  split
  · rfl
  · split
    · rfl
    · split
      · rfl
      · rfl

theorem handleCardPress_len {Img : Type} (s : GameState Img) (card : GCard Img) :
    (handleCardPress s card).gameCards.length = s.gameCards.length := by
  unfold handleCardPress
  split
  · rfl
  · split
    · rfl
    · split
      · exact List.length_map s.gameCards _
      · exact List.length_map s.gameCards _

theorem resolveFlipped_matchedPairs {Img : Type} (s : GameState Img) :
    (resolveFlipped s).matchedPairs = s.matchedPairs ∨
      (resolveFlipped s).matchedPairs = s.matchedPairs + 1 := by
  unfold resolveFlipped
  repeat' split
  all_goals first
    | exact Or.inl rfl
    | exact Or.inr rfl

theorem resolveFlipped_gameWon {Img : Type} (s : GameState Img) :
    (resolveFlipped s).gameWon = s.gameWon := by
  unfold resolveFlipped
  repeat' split
  all_goals rfl

theorem resolveFlipped_len {Img : Type} (s : GameState Img) :
    (resolveFlipped s).gameCards.length = s.gameCards.length := by
  unfold resolveFlipped
  repeat' split
  all_goals first
    | rfl
    | exact List.length_map s.gameCards _

theorem checkWin_matchedPairs {Img : Type} (s : GameState Img) :
    (checkWin s).matchedPairs = s.matchedPairs := by
  unfold checkWin
  split
  · rfl
  · rfl

theorem checkWin_len {Img : Type} (s : GameState Img) :
    (checkWin s).gameCards.length = s.gameCards.length := by
  unfold checkWin
  split
  · rfl
  · rfl

theorem checkWin_gameWon_mono {Img : Type} (s : GameState Img)
    (h : s.gameWon = true) : (checkWin s).gameWon = true := by
  unfold checkWin
  split
  · rfl
  · exact h

theorem checkWin_won {Img : Type} (s : GameState Img)
    (h1 : 0 < (checkWin s).gameCards.length)
    (h2 : 0 < (checkWin s).matchedPairs)
    (h3 : 2 * (checkWin s).matchedPairs = (checkWin s).gameCards.length) :
    (checkWin s).gameWon = true := by
  rw [checkWin_len] at h1 h3
  rw [checkWin_matchedPairs] at h2 h3
  unfold checkWin
  rw [if_pos ⟨h1, h2, h3⟩]

theorem gameStep_len {Img : Type} (s : GameState Img) (card : GCard Img) :
    (gameStep s card).gameCards.length = s.gameCards.length := by
  unfold gameStep
  rw [checkWin_len]
  split
  · rw [resolveFlipped_len, handleCardPress_len]
  · rw [handleCardPress_len]

theorem gameStep_matchedPairs {Img : Type} (s : GameState Img) (card : GCard Img) :
    (gameStep s card).matchedPairs = s.matchedPairs ∨
      (gameStep s card).matchedPairs = s.matchedPairs + 1 := by
  unfold gameStep
  rw [checkWin_matchedPairs]
  split
  · rcases resolveFlipped_matchedPairs (handleCardPress s card) with h | h
    · rw [h, handleCardPress_matchedPairs]
      exact Or.inl rfl
    · rw [h, handleCardPress_matchedPairs]
      exact Or.inr rfl
  · rw [handleCardPress_matchedPairs]
    exact Or.inl rfl

theorem gameStep_gameWon_mono {Img : Type} (s : GameState Img) (card : GCard Img)
    (h : s.gameWon = true) : (gameStep s card).gameWon = true := by
  unfold gameStep
  apply checkWin_gameWon_mono
  split
  · rw [resolveFlipped_gameWon, handleCardPress_gameWon]
    exact h
  · rw [handleCardPress_gameWon]
    exact h

theorem gameStep_won {Img : Type} (s : GameState Img) (card : GCard Img)
    (h1 : 0 < (gameStep s card).gameCards.length)
    (h2 : 0 < (gameStep s card).matchedPairs)
    (h3 : 2 * (gameStep s card).matchedPairs = (gameStep s card).gameCards.length) :
    (gameStep s card).gameWon = true := by
  unfold gameStep at h1 h2 h3 ⊢
  exact checkWin_won _ h1 h2 h3

theorem winEmissionCount_zero_after {Img : Type} :
    ∀ (presses : List (GCard Img)) (s : GameState Img) (T : Nat),
      s.gameCards.length = 2 * T → T ≤ s.matchedPairs → s.gameWon = true →
      winEmissionCount s presses = 0 ∧ (runGame s presses).gameWon = true ∧
        T ≤ (runGame s presses).matchedPairs := by
  intro presses
  induction presses with
  | nil => intro s T _ hm hw; exact ⟨rfl, hw, hm⟩
  | cons c cs ih =>
    intro s T hL hm hw
    have hL2 : (gameStep s c).gameCards.length = 2 * T := by
      rw [gameStep_len]; exact hL
    have hm2 : T ≤ (gameStep s c).matchedPairs := by
      rcases gameStep_matchedPairs s c with h | h <;> omega
    have hw2 := gameStep_gameWon_mono s c hw
    obtain ⟨hcount, hwon, hmp⟩ := ih (gameStep s c) T hL2 hm2 hw2
    refine ⟨?_, hwon, hmp⟩
    simp only [winEmissionCount]
    rw [hcount]
    have hno : ¬ emitsWin s (gameStep s c) := by
      rintro ⟨hne, _, _, heq⟩
      rw [gameStep_len, hL] at heq
      rcases gameStep_matchedPairs s c with h | h
      · exact hne h
      · omega
    rw [if_neg hno]

theorem winEmissionCount_once {Img : Type} :
    ∀ (presses : List (GCard Img)) (s : GameState Img) (T : Nat),
      s.gameCards.length = 2 * T → s.matchedPairs < T →
      winEmissionCount s presses =
        (if T ≤ (runGame s presses).matchedPairs then 1 else 0) ∧
      (T ≤ (runGame s presses).matchedPairs → (runGame s presses).gameWon = true) := by
  intro presses
  induction presses with
  | nil =>
    intro s T _ hm
    constructor
    · show 0 = if T ≤ s.matchedPairs then 1 else 0
      rw [if_neg (by omega)]
    · intro h
      simp only [runGame] at h
      omega
  | cons c cs ih =>
    intro s T hL hm
    have hL2 : (gameStep s c).gameCards.length = 2 * T := by
      rw [gameStep_len]; exact hL
    rcases gameStep_matchedPairs s c with hmp | hmp
    · have hm2 : (gameStep s c).matchedPairs < T := by omega
      obtain ⟨hc, hw⟩ := ih (gameStep s c) T hL2 hm2
      constructor
      · simp only [winEmissionCount, runGame]
        rw [hc, if_neg (fun hcond => hcond.1 hmp), Nat.zero_add]
      · simp only [runGame]
        exact hw
    · by_cases hT : s.matchedPairs + 1 = T
      · have hcond : emitsWin s (gameStep s c) := by
          refine ⟨by omega, ?_, by omega, ?_⟩
          · rw [gameStep_len, hL]; omega
          · rw [gameStep_len, hL]; omega
        have hwon : (gameStep s c).gameWon = true :=
          gameStep_won s c hcond.2.1 hcond.2.2.1 hcond.2.2.2
        obtain ⟨hzero, hrw, hrmp⟩ := winEmissionCount_zero_after cs (gameStep s c) T
          hL2 (by omega) hwon
        constructor
        · simp only [winEmissionCount, runGame]
          rw [hzero, if_pos hcond, if_pos hrmp]
        · intro _
          simp only [runGame]
          exact hrw
      · have hm2 : (gameStep s c).matchedPairs < T := by omega
        obtain ⟨hc, hw⟩ := ih (gameStep s c) T hL2 hm2
        constructor
        · simp only [winEmissionCount, runGame]
          have hno : ¬ emitsWin s (gameStep s c) := by
            rintro ⟨_, _, _, heq⟩
            rw [gameStep_len, hL] at heq
            omega
          rw [if_neg hno, Nat.zero_add]
          exact hc
        · simp only [runGame]
          exact hw

/-- C8: in any play whose deck length is 2 * T with the matched-pair counter
still below T, the win-detection effect emits its completion event exactly
once over the run precisely when the counter reaches T = deckLength / 2, and
by then the win flag is set and stays set however often the condition is
re-checked. -/
theorem win_emitted_once {Img : Type} (s : GameState Img)
    (presses : List (GCard Img)) (T : Nat) (hL : s.gameCards.length = 2 * T)
    (hm : s.matchedPairs < T) :
    winEmissionCount s presses =
      (if T ≤ (runGame s presses).matchedPairs then 1 else 0) ∧
    (T ≤ (runGame s presses).matchedPairs → (runGame s presses).gameWon = true) :=
  winEmissionCount_once presses s T hL hm

/-- Witness for C8: a two-card deck of one pair, pressing both cards; the
event fires exactly once and the win flag ends true. -/
theorem win_emitted_once_witness :
    ((⟨[⟨"a", 0, 5, false, false⟩, ⟨"b", 0, 5, false, false⟩], [], false, 0, false⟩ :
        GameState Nat).gameCards.length = 2 * 1 ∧
      (⟨[⟨"a", 0, 5, false, false⟩, ⟨"b", 0, 5, false, false⟩], [], false, 0, false⟩ :
        GameState Nat).matchedPairs < 1) ∧
    winEmissionCount
        (⟨[⟨"a", 0, 5, false, false⟩, ⟨"b", 0, 5, false, false⟩], [], false, 0, false⟩ :
          GameState Nat)
        [⟨"a", 0, 5, false, false⟩, ⟨"b", 0, 5, false, false⟩] =
      (if 1 ≤ (runGame
          (⟨[⟨"a", 0, 5, false, false⟩, ⟨"b", 0, 5, false, false⟩], [], false, 0, false⟩ :
            GameState Nat)
          [⟨"a", 0, 5, false, false⟩, ⟨"b", 0, 5, false, false⟩]).matchedPairs
        then 1 else 0) :=
  ⟨⟨rfl, by decide⟩,
    (win_emitted_once
      (⟨[⟨"a", 0, 5, false, false⟩, ⟨"b", 0, 5, false, false⟩], [], false, 0, false⟩ :
        GameState Nat)
      [⟨"a", 0, 5, false, false⟩, ⟨"b", 0, 5, false, false⟩] 1 rfl (by decide)).1⟩

/-- C5: while the engine is processing (the Resolving lock) or when the
pressed card is already face-up or already matched, handleCardPress returns
the state unchanged — a silent no-op on every field. -/
theorem flip_attempt_noop {Img : Type} (s : GameState Img) (card : GCard Img)
    (h : s.isProcessing = true ∨ card.isFlipped = true ∨ card.isMatched = true) :
    handleCardPress s card = s := by
  unfold handleCardPress
  have hcond : (s.isProcessing || card.isFlipped || card.isMatched) = true := by
    rcases h with h | h | h <;> simp [h]
  rw [if_pos hcond]

/-- Witness for C5: a press while the lock is held changes nothing. -/
theorem flip_attempt_noop_witness :
    ((⟨[], ["a", "b"], true, 0, false⟩ : GameState Nat).isProcessing = true ∨
      (⟨"c", 1, 7, false, false⟩ : GCard Nat).isFlipped = true ∨
      (⟨"c", 1, 7, false, false⟩ : GCard Nat).isMatched = true) ∧
    handleCardPress (⟨[], ["a", "b"], true, 0, false⟩ : GameState Nat)
        ⟨"c", 1, 7, false, false⟩ =
      (⟨[], ["a", "b"], true, 0, false⟩ : GameState Nat) :=
  ⟨Or.inl rfl,
    flip_attempt_noop (⟨[], ["a", "b"], true, 0, false⟩ : GameState Nat)
      ⟨"c", 1, 7, false, false⟩ (Or.inl rfl)⟩

/-- C1: from a state with exactly two flipped card ids whose cards are found
in the deck, the resolution empties the flipped list and releases the lock;
on equal pair identifiers it increments matchedPairs by one and marks every
card bearing either id matched; on different pair identifiers it leaves
matchedPairs unchanged and turns every card bearing either id face-down. -/
theorem resolveFlipped_correct {Img : Type} (s : GameState Img) (i1 i2 : String)
    (c1 c2 : GCard Img) (hfl : s.flippedCards = [i1, i2])
    (h1 : s.gameCards.find? (fun c => c.id == i1) = some c1)
    (h2 : s.gameCards.find? (fun c => c.id == i2) = some c2) :
    (resolveFlipped s).flippedCards = [] ∧
    (resolveFlipped s).isProcessing = false ∧
    (c1.pairId = c2.pairId →
      (resolveFlipped s).matchedPairs = s.matchedPairs + 1 ∧
      ∀ c ∈ (resolveFlipped s).gameCards,
        (c.id = i1 ∨ c.id = i2) → c.isMatched = true) ∧
    (c1.pairId ≠ c2.pairId →
      (resolveFlipped s).matchedPairs = s.matchedPairs ∧
      ∀ c ∈ (resolveFlipped s).gameCards,
        (c.id = i1 ∨ c.id = i2) → c.isFlipped = false) := by
  have hc1id : c1.id = i1 := by simpa using List.find?_some h1
  have hc2id : c2.id = i2 := by simpa using List.find?_some h2
  simp only [resolveFlipped, hfl, h1, h2]
  split
  · next hpid =>
    refine ⟨rfl, rfl, fun _ => ⟨rfl, ?_⟩, fun hne => absurd hpid hne⟩
    intro c hc hid
    obtain ⟨c0, hc0mem, hc0eq⟩ := List.mem_map.mp hc
    by_cases hcond : c0.id = c1.id ∨ c0.id = c2.id
    · rw [if_pos hcond] at hc0eq
      rw [← hc0eq]
    · rw [if_neg hcond] at hc0eq
      subst hc0eq
      rw [hc1id, hc2id] at hcond
      exact absurd hid hcond
  · next hpid =>
    refine ⟨rfl, rfl, fun heq => absurd heq hpid, fun _ => ⟨rfl, ?_⟩⟩
    intro c hc hid
    obtain ⟨c0, hc0mem, hc0eq⟩ := List.mem_map.mp hc
    by_cases hcond : c0.id = c1.id ∨ c0.id = c2.id
    · rw [if_pos hcond] at hc0eq
      rw [← hc0eq]
    · rw [if_neg hcond] at hc0eq
      subst hc0eq
      rw [hc1id, hc2id] at hcond
      exact absurd hid hcond

/-- Witness for C1: two flipped cards of the same pair resolve to an empty
flipped list with the counter incremented to one. -/
theorem resolveFlipped_correct_witness :
    ((⟨[⟨"a", 0, 5, true, false⟩, ⟨"b", 0, 5, true, false⟩], ["a", "b"],
        true, 0, false⟩ : GameState Nat).flippedCards = ["a", "b"] ∧
      (⟨[⟨"a", 0, 5, true, false⟩, ⟨"b", 0, 5, true, false⟩], ["a", "b"],
        true, 0, false⟩ : GameState Nat).gameCards.find?
          (fun c => c.id == "a") = some ⟨"a", 0, 5, true, false⟩) ∧
    (resolveFlipped
      (⟨[⟨"a", 0, 5, true, false⟩, ⟨"b", 0, 5, true, false⟩], ["a", "b"],
        true, 0, false⟩ : GameState Nat)).flippedCards = [] :=
  ⟨⟨rfl, by decide⟩,
    (resolveFlipped_correct
      (⟨[⟨"a", 0, 5, true, false⟩, ⟨"b", 0, 5, true, false⟩], ["a", "b"],
        true, 0, false⟩ : GameState Nat)
      "a" "b" ⟨"a", 0, 5, true, false⟩ ⟨"b", 0, 5, true, false⟩
      rfl (by decide) (by decide)).1⟩
